import Mathlib

/-!
Verification development for the `skybound-echoes` game server
(`src/server.js`): a shallow embedding of the authoritative world state,
the per-connection message handler, the connect handler and the coin
seeding routine, together with theorems about the specified properties.

JavaScript numbers are modelled by `JSNum`: `NaN`, the two infinities, or
a finite value represented exactly as a rational. The arithmetic used by
the server (subtraction, multiplication, addition, comparison, `Math.min`,
`Math.max`) is defined case by case following ECMAScript semantics; finite
arithmetic is exact (float rounding is not modelled, and signed zero is
identified with zero, neither of which the handlers distinguish).

JavaScript values reaching the handler via `JSON.parse` are modelled by
`JSVal`; a raw frame that fails to parse is `Option.none`. Sends performed
by a handler are recorded as a list of `Delivery` values, in order.
-/

set_option maxRecDepth 100000

namespace Skybound

/-- A JavaScript number: NaN, +∞, -∞, or an exact finite value. -/
inductive JSNum where
  | nan
  | posInf
  | negInf
  | fin (q : ℚ)
deriving DecidableEq, Repr

namespace JSNum

/-- ECMAScript `Math.min` on two numbers: NaN-propagating, otherwise the minimum. -/
def jsMin : JSNum → JSNum → JSNum
  | nan, _ => nan
  | _, nan => nan
  | negInf, _ => negInf
  | _, negInf => negInf
  | posInf, b => b
  | a, posInf => a
  | fin a, fin b => fin (min a b)

/-- ECMAScript `Math.max` on two numbers: NaN-propagating, otherwise the maximum. -/
def jsMax : JSNum → JSNum → JSNum
  | nan, _ => nan
  | _, nan => nan
  | posInf, _ => posInf
  | _, posInf => posInf
  | negInf, b => b
  | a, negInf => a
  | fin a, fin b => fin (max a b)

/-- ECMAScript subtraction `a - b`. -/
def jsSub : JSNum → JSNum → JSNum
  | nan, _ => nan
  | _, nan => nan
  | posInf, posInf => nan
  | posInf, _ => posInf
  | negInf, negInf => nan
  | negInf, _ => negInf
  | fin _, posInf => negInf
  | fin _, negInf => posInf
  | fin a, fin b => fin (a - b)

/-- ECMAScript multiplication `a * b` (infinity times zero is NaN). -/
def jsMul : JSNum → JSNum → JSNum
  | nan, _ => nan
  | _, nan => nan
  | posInf, posInf => posInf
  | posInf, negInf => negInf
  | negInf, posInf => negInf
  | negInf, negInf => posInf
  | posInf, fin q => if 0 < q then posInf else if q < 0 then negInf else nan
  | negInf, fin q => if 0 < q then negInf else if q < 0 then posInf else nan
  | fin q, posInf => if 0 < q then posInf else if q < 0 then negInf else nan
  | fin q, negInf => if 0 < q then negInf else if q < 0 then posInf else nan
  | fin a, fin b => fin (a * b)

/-- ECMAScript addition `a + b` (opposite infinities give NaN). -/
def jsAdd : JSNum → JSNum → JSNum
  | nan, _ => nan
  | _, nan => nan
  | posInf, negInf => nan
  | negInf, posInf => nan
  | posInf, _ => posInf
  | _, posInf => posInf
  | negInf, _ => negInf
  | _, negInf => negInf
  | fin a, fin b => fin (a + b)

/-- ECMAScript strict less-than `a < b`: false whenever either side is NaN. -/
def jsLt : JSNum → JSNum → Bool
  | nan, _ => false
  | _, nan => false
  | _, negInf => false
  | negInf, _ => true
  | posInf, _ => false
  | fin _, posInf => true
  | fin a, fin b => decide (a < b)

end JSNum

/-- The clamp `Math.max(lo, Math.min(hi, v))` as written in the `update` handler. -/
def jsClamp (lo hi : ℚ) (v : JSNum) : JSNum :=
  JSNum.jsMax (.fin lo) (JSNum.jsMin (.fin hi) v)

/-- A JavaScript value as produced by `JSON.parse` (plus `undefined`, the
result of a missing property access). -/
inductive JSVal where
  | vUndefined
  | vNull
  | vBool (b : Bool)
  | vNum (n : JSNum)
  | vStr (s : String)
  | vArr (elems : List JSVal)
  | vObj (fields : List (String × JSVal))

/-- JavaScript truthiness of a value. -/
def truthy : JSVal → Bool
  | .vUndefined => false
  | .vNull => false
  | .vBool b => b
  | .vNum .nan => false
  | .vNum (.fin q) => decide (q ≠ 0)
  | .vNum _ => true
  | .vStr s => decide (s ≠ "")
  | .vArr _ => true
  | .vObj _ => true

/-- Property access `v[key]`: on an object the named field (last duplicate
wins, as in `JSON.parse`), `undefined` otherwise. -/
def getField : JSVal → String → JSVal
  | .vObj fs, key =>
    match fs.reverse.find? (fun kv => decide (kv.1 = key)) with
    | some kv => kv.2
    | none => .vUndefined
  | _, _ => .vUndefined

/-- JavaScript strict equality `v === s` against a string literal. -/
def strictEqStr (v : JSVal) (s : String) : Bool :=
  match v with
  | .vStr t => decide (t = s)
  | _ => false

/-- Does `typeof v === 'number'` hold? -/
def isNum : JSVal → Bool
  | .vNum _ => true
  | _ => false

/-- Does `typeof v === 'string'` hold? -/
def isStr : JSVal → Bool
  | .vStr _ => true
  | _ => false

/-- A player record: `{ id, name, x, y, bubbleRadius, ws }`, with the
transmit handle abstracted to whether `ws.readyState === OPEN`. -/
structure Player where
  id : String
  name : String
  x : JSNum
  y : JSNum
  bubbleRadius : JSNum
  wsOpen : Bool
deriving DecidableEq, Repr

/-- A coin record: `{ id, x, y, taken }`; positions are the integers
produced by `spawnCoins`. -/
structure Coin where
  id : String
  x : ℤ
  y : ℤ
  taken : Bool
deriving DecidableEq, Repr

/-- The server's mutable state: the `nextId` counter, the `players` map in
insertion order, and the `coins` array. -/
structure ServerState where
  nextId : ℕ
  players : List Player
  coins : List Coin
deriving DecidableEq, Repr

/-- One player's entry in a `state` payload: `{ id, name, x, y, bubbleRadius }`. -/
structure PlayerView where
  id : String
  name : String
  x : JSNum
  y : JSNum
  bubbleRadius : JSNum
deriving DecidableEq, Repr

/-- One coin's entry in a `state` payload: `{ id, x, y, taken }`. -/
structure CoinView where
  id : String
  x : ℤ
  y : ℤ
  taken : Bool
deriving DecidableEq, Repr

/-- The broadcast `state` payload: `{ type: 'state', t, players, coins }`.
The constant `type` tag is carried by the `Payload.state` constructor. -/
structure StatePayload where
  t : ℤ
  players : List PlayerView
  coins : List CoinView
deriving DecidableEq, Repr

/-- A frame sent by the server to one client. -/
inductive Payload where
  | state (sp : StatePayload)
  | welcome (id : String) (w h groundY : ℤ) (coins : List Coin)
  | signal (src : String) (data : JSVal)

/-- One send performed by the server: which player's connection received
which frame. -/
structure Delivery where
  recipient : String
  payload : Payload

/-- The `state` payload built by `broadcastState` from the current state,
with `Date.now()` passed in as `now`. -/
def statePayload (s : ServerState) (now : ℤ) : StatePayload :=
  { t := now
    players := s.players.map (fun p =>
      { id := p.id, name := p.name, x := p.x, y := p.y, bubbleRadius := p.bubbleRadius })
    coins := s.coins.map (fun c => { id := c.id, x := c.x, y := c.y, taken := c.taken }) }

/-- The sends performed by `broadcastState`: the identical `state` payload
to every player whose connection is open, in map order. -/
def broadcastDeliveries (s : ServerState) (now : ℤ) : List Delivery :=
  (s.players.filter (fun p => p.wsOpen)).map
    (fun p => { recipient := p.id, payload := .state (statePayload s now) })

/-- Write the mutated closure player object back into the players map:
entries whose id matches are the same object, so they show the new fields. -/
def setPlayer (ps : List Player) (p : Player) : List Player :=
  ps.map (fun q => if q.id = p.id then p else q)

/-- Look a player up by id in the players map. -/
def findPlayer (s : ServerState) (pid : String) : Option Player :=
  s.players.find? (fun p => decide (p.id = pid))

/-- The conditional write `typeof v === 'string' ? v.slice(0,32) : dflt`. -/
def jsNameOr (v : JSVal) (dflt : String) : String :=
  match v with
  | .vStr str => str.take 32
  | _ => dflt

/-- The conditional write `if (typeof v === 'number') field = v` (else keep). -/
def jsNumOr (v : JSVal) (dflt : JSNum) : JSNum :=
  match v with
  | .vNum n => n
  | _ => dflt

/-- The conditional clamped write of the `update` handler. -/
def jsClampOr (lo hi : ℚ) (v : JSVal) (dflt : JSNum) : JSNum :=
  match v with
  | .vNum n => jsClamp lo hi n
  | _ => dflt

/-- The player object after the `join` handler's three field writes. -/
def joinedPlayer (player : Player) (msg : JSVal) : Player :=
  { player with
    name := jsNameOr (getField msg "name") player.name
    x := jsNumOr (getField msg "x") player.x
    y := jsNumOr (getField msg "y") player.y }

/-- The `join` branch: set name (if a string, truncated to 32) and position
(if numeric, unclamped), then broadcast immediately. -/
def handleJoin (s : ServerState) (player : Player) (msg : JSVal) (now : ℤ) :
    ServerState × List Delivery :=
  let p := joinedPlayer player msg
  let s1 : ServerState := { s with players := setPlayer s.players p }
  (s1, broadcastDeliveries s1 now)

/-- The player object after the `update` handler's clamped field writes. -/
def updatedPlayer (player : Player) (msg : JSVal) : Player :=
  { player with
    x := jsClampOr 0 1600 (getField msg "x") player.x
    y := jsClampOr 0 900 (getField msg "y") player.y
    bubbleRadius := jsClampOr 30 400 (getField msg "bubbleRadius") player.bubbleRadius }

/-- The `update` branch: clamp x to [0,1600], y to [0,900], bubbleRadius to
[30,400] when numeric; no broadcast. -/
def handleUpdate (s : ServerState) (player : Player) (msg : JSVal) :
    ServerState × List Delivery :=
  ({ s with players := setPlayer s.players (updatedPlayer player msg) }, [])

/-- The squared distance `dx*dx + dy*dy` exactly as the `collect` handler
computes it, between a coin and the acting player's server-side position. -/
def sqDistCode (coin : Coin) (player : Player) : JSNum :=
  let dx := JSNum.jsSub (.fin (coin.x : ℚ)) player.x
  let dy := JSNum.jsSub (.fin (coin.y : ℚ)) player.y
  JSNum.jsAdd (JSNum.jsMul dx dx) (JSNum.jsMul dy dy)

/-- Set `taken := true` on the first coin matching `coins.find(c => c.id === coinId)`
(the handler mutates the found object in place). -/
def markTakenFirst : List Coin → JSVal → List Coin
  | [], _ => []
  | c :: rest, coinId =>
    if strictEqStr coinId c.id then { c with taken := true } :: rest
    else c :: markTakenFirst rest coinId

/-- The `collect` branch: find the coin by id; if present, untaken and at
squared distance strictly below 400, mark it taken and broadcast. -/
def handleCollect (s : ServerState) (player : Player) (msg : JSVal) (now : ℤ) :
    ServerState × List Delivery :=
  let coinId := getField msg "coinId"
  match s.coins.find? (fun c => strictEqStr coinId c.id) with
  | none => (s, [])
  | some coin =>
    if coin.taken then (s, [])
    else if JSNum.jsLt (sqDistCode coin player) (.fin 400) then
      let s1 : ServerState := { s with coins := markTakenFirst s.coins coinId }
      (s1, broadcastDeliveries s1 now)
    else (s, [])

/-- The `signal` branch: forward `{ type:'signal', from: player.id, data }`
to the target's connection when the target exists and is open. -/
def handleSignal (s : ServerState) (player : Player) (msg : JSVal) :
    ServerState × List Delivery :=
  match getField msg "to" with
  | .vStr t =>
    match s.players.find? (fun p => decide (p.id = t)) with
    | some target =>
      if target.wsOpen then
        (s, [{ recipient := target.id
               payload := .signal player.id (getField msg "data") }])
      else (s, [])
    | none => (s, [])
  | _ => (s, [])

/-- The `chat` branch: the truncated text is computed but discarded; the
only effect is an immediate broadcast of the current state. -/
def handleChat (s : ServerState) (now : ℤ) : ServerState × List Delivery :=
  (s, broadcastDeliveries s now)

/-- The whole `ws.on('message')` handler for one raw frame. `none` models a
frame `JSON.parse` throws on; the acting `player` is the closure's player
object. Returns the new state and every send performed, in order. -/
def handleMessage (s : ServerState) (player : Player) (raw : Option JSVal) (now : ℤ) :
    ServerState × List Delivery :=
  match raw with
  | none => (s, [])
  | some msg =>
    if truthy msg = false then (s, [])
    else if truthy (getField msg "type") = false then (s, [])
    else if strictEqStr (getField msg "type") "join" then handleJoin s player msg now
    else if strictEqStr (getField msg "type") "update" then handleUpdate s player msg
    else if strictEqStr (getField msg "type") "collect" then handleCollect s player msg now
    else if strictEqStr (getField msg "type") "signal" then handleSignal s player msg
    else if strictEqStr (getField msg "type") "chat" then handleChat s now
    else (s, [])

/-- The id string `'p' + nextId`. -/
def mkPlayerId (n : ℕ) : String := "p" ++ Nat.repr n

/-- The `wss.on('connection')` handler: create the player with defaults,
register it, send `welcome` on the new connection, then broadcast. -/
def handleConnect (s : ServerState) (now : ℤ) : ServerState × List Delivery :=
  let id := mkPlayerId s.nextId
  let player : Player :=
    { id := id, name := "Pilot" ++ id, x := .fin 800, y := .fin 450
      bubbleRadius := .fin 120, wsOpen := true }
  let s1 : ServerState :=
    { nextId := s.nextId + 1, players := s.players ++ [player], coins := s.coins }
  (s1, { recipient := id, payload := .welcome id 1600 900 780 s.coins }
        :: broadcastDeliveries s1 now)

/-- The `spawnCoins` seeding routine; `r i` is the value of the i-th call
to `Math.random()` (x before y within each iteration). -/
def spawnCoins (r : ℕ → ℚ) : List Coin :=
  (List.range 20).map (fun i =>
    { id := "c" ++ Nat.repr i
      x := 80 + ⌊r (2 * i) * (1600 - 160)⌋
      y := 80 + ⌊r (2 * i + 1) * (900 - 240)⌋
      taken := false })

/-! Decimal representation: `'p' + n` and `'c' + i` use the decimal string
of the counter, so distinct counters give distinct ids. We prove
`Nat.repr` injective via an explicit digit-list function. -/

/-- Decimal digit list of a natural number, most significant digit first. -/
def natDigits (n : ℕ) : List Char :=
  if _h : n < 10 then [Nat.digitChar n]
  else natDigits (n / 10) ++ [Nat.digitChar (n % 10)]
termination_by n
decreasing_by exact Nat.div_lt_self (by omega) (by omega)

theorem natDigits_lt {n : ℕ} (h : n < 10) : natDigits n = [Nat.digitChar n] := by
  rw [natDigits]
  rw [dif_pos h]

theorem natDigits_ge {n : ℕ} (h : ¬ n < 10) :
    natDigits n = natDigits (n / 10) ++ [Nat.digitChar (n % 10)] := by
  rw [natDigits]
  rw [dif_neg h]

theorem natDigits_ne_nil (n : ℕ) : natDigits n ≠ [] := by
  by_cases h : n < 10
  · rw [natDigits_lt h]; simp
  · rw [natDigits_ge h]; simp

theorem toDigitsCore_eq_natDigits (fuel : ℕ) :
    ∀ n ds, n < fuel → Nat.toDigitsCore 10 fuel n ds = natDigits n ++ ds := by
  induction fuel with
  | zero => intro n ds h; omega
  | succ f ih =>
    intro n ds h
    simp only [Nat.toDigitsCore]
    by_cases h10 : n / 10 = 0
    · rw [if_pos h10]
      have hn : n < 10 := by
        by_contra hc
        push_neg at hc
        have : 1 ≤ n / 10 := (Nat.one_le_div_iff (by omega)).mpr hc
        omega
      rw [natDigits_lt hn, Nat.mod_eq_of_lt hn]
      simp
    · rw [if_neg h10]
      have hge : 10 ≤ n := by
        by_contra hc
        push_neg at hc
        rw [Nat.div_eq_of_lt hc] at h10
        exact h10 rfl
      have hlt : n / 10 < f := by
        have : n / 10 < n := Nat.div_lt_self (by omega) (by omega)
        omega
      rw [ih (n / 10) _ hlt, natDigits_ge (by omega : ¬ n < 10)]
      simp

theorem digitChar_inj_lt :
    ∀ a < 10, ∀ b < 10, Nat.digitChar a = Nat.digitChar b → a = b := by decide

theorem natDigits_inj : ∀ a b : ℕ, natDigits a = natDigits b → a = b := by
  intro a
  induction a using Nat.strong_induction_on with
  | _ a ih =>
    intro b h
    by_cases ha : a < 10 <;> by_cases hb : b < 10
    · rw [natDigits_lt ha, natDigits_lt hb] at h
      simp only [List.cons.injEq, and_true] at h
      exact digitChar_inj_lt a ha b hb h
    · rw [natDigits_lt ha, natDigits_ge hb] at h
      have hl := congrArg List.length h
      simp only [List.length_append, List.length_singleton, List.length_cons,
        List.length_nil] at hl
      have hz : (natDigits (b / 10)).length = 0 := by omega
      exact absurd (List.length_eq_zero.mp hz) (natDigits_ne_nil _)
    · rw [natDigits_ge ha, natDigits_lt hb] at h
      have hl := congrArg List.length h
      simp only [List.length_append, List.length_singleton, List.length_cons,
        List.length_nil] at hl
      have hz : (natDigits (a / 10)).length = 0 := by omega
      exact absurd (List.length_eq_zero.mp hz) (natDigits_ne_nil _)
    · rw [natDigits_ge ha, natDigits_ge hb] at h
      obtain ⟨h3, h4⟩ := List.append_inj' h (by simp)
      simp only [List.cons.injEq, and_true] at h4
      have hd : a % 10 = b % 10 :=
        digitChar_inj_lt _ (Nat.mod_lt _ (by omega)) _ (Nat.mod_lt _ (by omega)) h4
      have hq : a / 10 = b / 10 :=
        ih (a / 10) (Nat.div_lt_self (by omega) (by omega)) (b / 10) h3
      omega

theorem natRepr_eq_natDigits (n : ℕ) : Nat.repr n = (natDigits n).asString := by
  show (Nat.toDigits 10 n).asString = _
  unfold Nat.toDigits
  rw [toDigitsCore_eq_natDigits (n + 1) n [] (by omega)]
  simp

theorem natRepr_inj {a b : ℕ} (h : Nat.repr a = Nat.repr b) : a = b := by
  rw [natRepr_eq_natDigits, natRepr_eq_natDigits] at h
  have h2 : natDigits a = natDigits b := by
    simpa [List.asString] using congrArg String.data h
  exact natDigits_inj a b h2

theorem mkPlayerId_inj {a b : ℕ} (h : mkPlayerId a = mkPlayerId b) : a = b := by
  simp only [mkPlayerId] at h
  have h2 := congrArg String.data h
  rw [String.data_append, String.data_append] at h2
  have hp : ("p" : String).data = ['p'] := rfl
  rw [hp] at h2
  simp only [List.cons_append, List.nil_append, List.cons.injEq, true_and] at h2
  exact natRepr_inj (String.ext h2)

/-! Dispatch lemmas: a message whose `type` field is one of the five
recognized literal strings reaches exactly its handler. -/

theorem strictEqStr_eq_true {v : JSVal} {s : String} :
    strictEqStr v s = true ↔ v = .vStr s := by
  cases v <;> simp [strictEqStr]

theorem truthy_of_getField_str {v : JSVal} {k s : String}
    (h : getField v k = .vStr s) : truthy v = true := by
  cases v <;> simp_all [getField, truthy]

theorem handleMessage_join {s : ServerState} {player : Player} {v : JSVal} {now : ℤ}
    (h : getField v "type" = .vStr "join") :
    handleMessage s player (some v) now = handleJoin s player v now := by
  have ht := truthy_of_getField_str h
  simp only [handleMessage, ht, h]
  simp [strictEqStr, truthy]

theorem handleMessage_update {s : ServerState} {player : Player} {v : JSVal} {now : ℤ}
    (h : getField v "type" = .vStr "update") :
    handleMessage s player (some v) now = handleUpdate s player v := by
  have ht := truthy_of_getField_str h
  simp only [handleMessage, ht, h]
  simp [strictEqStr, truthy]

theorem handleMessage_collect {s : ServerState} {player : Player} {v : JSVal} {now : ℤ}
    (h : getField v "type" = .vStr "collect") :
    handleMessage s player (some v) now = handleCollect s player v now := by
  have ht := truthy_of_getField_str h
  simp only [handleMessage, ht, h]
  simp [strictEqStr, truthy]

theorem handleMessage_signal {s : ServerState} {player : Player} {v : JSVal} {now : ℤ}
    (h : getField v "type" = .vStr "signal") :
    handleMessage s player (some v) now = handleSignal s player v := by
  have ht := truthy_of_getField_str h
  simp only [handleMessage, ht, h]
  simp [strictEqStr, truthy]

theorem handleMessage_chat {s : ServerState} {player : Player} {v : JSVal} {now : ℤ}
    (h : getField v "type" = .vStr "chat") :
    handleMessage s player (some v) now = handleChat s now := by
  have ht := truthy_of_getField_str h
  simp only [handleMessage, ht, h]
  simp [strictEqStr, truthy]

/-! Small facts about the conditional field writes. -/

theorem jsNameOr_str {str dflt : String} : jsNameOr (.vStr str) dflt = str.take 32 := rfl

theorem jsNameOr_not_str {v : JSVal} {dflt : String} (h : isStr v = false) :
    jsNameOr v dflt = dflt := by
  cases v <;> simp_all [isStr, jsNameOr]

theorem jsNumOr_num {n : JSNum} {dflt : JSNum} : jsNumOr (.vNum n) dflt = n := rfl

theorem jsNumOr_not_num {v : JSVal} {dflt : JSNum} (h : isNum v = false) :
    jsNumOr v dflt = dflt := by
  cases v <;> simp_all [isNum, jsNumOr]

theorem jsClampOr_num {lo hi : ℚ} {n : JSNum} {dflt : JSNum} :
    jsClampOr lo hi (.vNum n) dflt = jsClamp lo hi n := rfl

theorem jsClampOr_not_num {lo hi : ℚ} {v : JSVal} {dflt : JSNum} (h : isNum v = false) :
    jsClampOr lo hi v dflt = dflt := by
  cases v <;> simp_all [isNum, jsClampOr]

/-! Concrete fixtures used by the witness theorems. -/

/-- A freshly connected player, as created by the connection handler. -/
def pDemo : Player :=
  { id := "p1", name := "Pilotp1", x := .fin 800, y := .fin 450
    bubbleRadius := .fin 120, wsOpen := true }

/-- A second connected player, moved away from the centre. -/
def pDemo2 : Player :=
  { id := "p2", name := "Pilotp2", x := .fin 100, y := .fin 100
    bubbleRadius := .fin 120, wsOpen := true }

/-- An untaken coin at squared distance exactly 400 from `pDemo`. -/
def cDemo : Coin := { id := "c0", x := 820, y := 450, taken := false }

/-- An untaken coin at squared distance 100 from `pDemo`. -/
def cDemoNear : Coin := { id := "c1", x := 806, y := 458, taken := false }

/-- An already-taken coin. -/
def cDemoTaken : Coin := { id := "c2", x := 800, y := 450, taken := true }

/-- A small server state with two players and three coins. -/
def sDemo : ServerState :=
  { nextId := 3, players := [pDemo, pDemo2], coins := [cDemo, cDemoNear, cDemoTaken] }

/-!
## C5 — unrecognized frames are dropped silently
-/

/-- Does the message's `type` strictly equal one of the five handled kinds? -/
def recognizedType (v : JSVal) : Bool :=
  strictEqStr (getField v "type") "join" || strictEqStr (getField v "type") "update" ||
    strictEqStr (getField v "type") "collect" || strictEqStr (getField v "type") "signal" ||
    strictEqStr (getField v "type") "chat"

/-- C5: an inbound frame that fails to parse, or parses to a falsy value,
or has no truthy `type` field, or has a `type` outside
{join, update, collect, signal, chat}, leaves every player, every coin and
the connection registry unchanged, sends nothing, and raises no error. -/
theorem C5_unrecognized_frame_is_silent_noop (s : ServerState) (player : Player)
    (now : ℤ) (m : Option JSVal)
    (h : m = none ∨ ∃ v, m = some v ∧
      (truthy v = false ∨ truthy (getField v "type") = false ∨ recognizedType v = false)) :
    handleMessage s player m now = (s, []) := by
  rcases h with rfl | ⟨v, rfl, h⟩
  · rfl
  rcases h with h | h | h
  · simp [handleMessage, h]
  · simp [handleMessage, h]
  · simp only [recognizedType, Bool.or_eq_false_iff] at h
    obtain ⟨⟨⟨⟨h1, h2⟩, h3⟩, h4⟩, h5⟩ := h
    by_cases ht : truthy v = false
    · simp [handleMessage, ht]
    · by_cases ht2 : truthy (getField v "type") = false
      · simp [handleMessage, ht, ht2]
      · simp [handleMessage, ht, ht2, h1, h2, h3, h4, h5]

/-- Witness for C5: a frame whose type `"teleport"` is unrecognized is a
no-op on the demo state. -/
theorem C5_witness :
    handleMessage sDemo pDemo (some (.vObj [("type", .vStr "teleport")])) 7 = (sDemo, []) :=
  C5_unrecognized_frame_is_silent_noop sDemo pDemo 7 _
    (Or.inr ⟨_, rfl, Or.inr (Or.inr (by decide))⟩)

/-!
## C9 — chat broadcasts state only, chat text never leaves the server
-/

/-- C9: a `chat` message changes no player and no coin, triggers exactly the
state broadcast, every payload sent is the `state` payload (fields
`{type, t, players, coins}` only), and the result is identical for any two
values of the `text` field. -/
theorem C9_chat_state_broadcast_without_text (s : ServerState) (player : Player)
    (v : JSVal) (now : ℤ) (h : getField v "type" = .vStr "chat") :
    handleMessage s player (some v) now = (s, broadcastDeliveries s now) ∧
    (∀ d ∈ broadcastDeliveries s now, d.payload = .state (statePayload s now)) ∧
    (∀ v2, getField v2 "type" = .vStr "chat" →
      handleMessage s player (some v2) now = handleMessage s player (some v) now) := by
  refine ⟨handleMessage_chat h, ?_, ?_⟩
  · intro d hd
    simp only [broadcastDeliveries, List.mem_map] at hd
    obtain ⟨p, _, rfl⟩ := hd
    rfl
  · intro v2 h2
    rw [handleMessage_chat h2, handleMessage_chat h]

/-- Witness for C9: a concrete chat frame on the demo state broadcasts the
state payload, whose only fields are t, players and coins. -/
theorem C9_witness :
    handleMessage sDemo pDemo
        (some (.vObj [("type", .vStr "chat"), ("text", .vStr "hello")])) 7 =
      (sDemo, broadcastDeliveries sDemo 7) ∧
    (broadcastDeliveries sDemo 7).map Delivery.payload =
      [.state (statePayload sDemo 7), .state (statePayload sDemo 7)] :=
  ⟨(C9_chat_state_broadcast_without_text sDemo pDemo
      (.vObj [("type", .vStr "chat"), ("text", .vStr "hello")]) 7 (by rfl)).1, rfl⟩

/-!
## C8 — join sets name (truncated) and unclamped position, then broadcasts
-/

/-- C8: a `join` message sets the display name to the first 32 characters
when `name` is a string (else leaves it), sets x and y to the raw numeric
values with no clamping when numeric (else leaves them), and broadcasts
immediately. -/
theorem C8_join_sets_name_and_unclamped_position (s : ServerState) (player : Player)
    (v : JSVal) (now : ℤ) (h : getField v "type" = .vStr "join") :
    (∀ str, getField v "name" = .vStr str → (joinedPlayer player v).name = str.take 32) ∧
    (isStr (getField v "name") = false → (joinedPlayer player v).name = player.name) ∧
    (∀ n, getField v "x" = .vNum n → (joinedPlayer player v).x = n) ∧
    (isNum (getField v "x") = false → (joinedPlayer player v).x = player.x) ∧
    (∀ n, getField v "y" = .vNum n → (joinedPlayer player v).y = n) ∧
    (isNum (getField v "y") = false → (joinedPlayer player v).y = player.y) ∧
    (joinedPlayer player v).id = player.id ∧
    (joinedPlayer player v).bubbleRadius = player.bubbleRadius ∧
    handleMessage s player (some v) now =
      ({ s with players := setPlayer s.players (joinedPlayer player v) },
        broadcastDeliveries
          { s with players := setPlayer s.players (joinedPlayer player v) } now) := by
  refine ⟨?_, ?_, ?_, ?_, ?_, ?_, rfl, rfl, ?_⟩
  · intro str hn; simp [joinedPlayer, hn, jsNameOr_str]
  · intro hn; simp [joinedPlayer, jsNameOr_not_str hn]
  · intro n hn; simp [joinedPlayer, hn, jsNumOr_num]
  · intro hn; simp [joinedPlayer, jsNumOr_not_num hn]
  · intro n hn; simp [joinedPlayer, hn, jsNumOr_num]
  · intro hn; simp [joinedPlayer, jsNumOr_not_num hn]
  · rw [handleMessage_join h]; rfl

/-- Witness for C8: a concrete join frame with a long name and an
out-of-bounds x applies the truncated name and the unclamped position. -/
theorem C8_witness :
    (joinedPlayer pDemo
        (.vObj [("type", .vStr "join"), ("name", .vStr "abc"), ("x", .vNum (.fin 99999))])).name
        = "abc" ∧
    (joinedPlayer pDemo
        (.vObj [("type", .vStr "join"), ("name", .vStr "abc"), ("x", .vNum (.fin 99999))])).x
        = .fin 99999 :=
  ⟨((C8_join_sets_name_and_unclamped_position sDemo pDemo
        (.vObj [("type", .vStr "join"), ("name", .vStr "abc"), ("x", .vNum (.fin 99999))])
        7 (by rfl)).1 "abc" (by rfl)).trans (by decide),
    (C8_join_sets_name_and_unclamped_position sDemo pDemo
        (.vObj [("type", .vStr "join"), ("name", .vStr "abc"), ("x", .vNum (.fin 99999))])
        7 (by rfl)).2.2.1 (.fin 99999) (by rfl)⟩

/-!
## C6 — signal relay is verbatim, targeted, and silent on failure
-/

/-- C6: a `signal` message from `player` forwards exactly one frame
`{type:'signal', from: player.id, data}` to the target connection when `to`
names a registered player whose connection is open, and sends nothing when
the target is unknown, closed, or `to` is not a string; world state never
changes. -/
theorem C6_signal_forwarded_or_dropped (s : ServerState) (player : Player)
    (v : JSVal) (now : ℤ) (h : getField v "type" = .vStr "signal") :
    (∀ t target, getField v "to" = .vStr t →
        s.players.find? (fun p => decide (p.id = t)) = some target →
        (target.wsOpen = true →
          handleMessage s player (some v) now =
            (s, [{ recipient := target.id
                   payload := .signal player.id (getField v "data") }])) ∧
        (target.wsOpen = false → handleMessage s player (some v) now = (s, []))) ∧
    (∀ t, getField v "to" = .vStr t →
        s.players.find? (fun p => decide (p.id = t)) = none →
        handleMessage s player (some v) now = (s, [])) ∧
    (isStr (getField v "to") = false → handleMessage s player (some v) now = (s, [])) := by
  rw [handleMessage_signal h]
  refine ⟨?_, ?_, ?_⟩
  · intro t target hto hfind
    constructor
    · intro hopen
      simp [handleSignal, hto, hfind, hopen]
    · intro hclosed
      simp [handleSignal, hto, hfind, hclosed]
  · intro t hto hfind
    simp [handleSignal, hto, hfind]
  · intro hto
    cases hf : getField v "to" with
    | vStr t => rw [hf] at hto; simp [isStr] at hto
    | vUndefined => simp [handleSignal, hf]
    | vNull => simp [handleSignal, hf]
    | vBool b => simp [handleSignal, hf]
    | vNum n => simp [handleSignal, hf]
    | vArr l => simp [handleSignal, hf]
    | vObj l => simp [handleSignal, hf]

/-- Witness for C6: a concrete signal from `pDemo` to `"p2"` delivers
exactly one verbatim frame to `p2` and changes nothing. -/
theorem C6_witness :
    handleMessage sDemo pDemo
        (some (.vObj [("type", .vStr "signal"), ("to", .vStr "p2"), ("data", .vStr "offer")])) 7 =
      (sDemo, [{ recipient := "p2", payload := .signal "p1" (.vStr "offer") }]) := by
  have h := (((C6_signal_forwarded_or_dropped sDemo pDemo
      (.vObj [("type", .vStr "signal"), ("to", .vStr "p2"), ("data", .vStr "offer")])
      7 (by rfl)).1 "p2" pDemo2 (by rfl) (by rfl)).1 (by rfl))
  exact h.trans (by rfl)

/-!
## Collect: helper lemmas
-/

theorem find?_markTakenFirst {coins : List Coin} {coinId : JSVal} {coin : Coin}
    (h : coins.find? (fun c => strictEqStr coinId c.id) = some coin) :
    (markTakenFirst coins coinId).find? (fun c => strictEqStr coinId c.id) =
      some { coin with taken := true } := by
  induction coins with
  | nil => simp at h
  | cons c rest ih =>
    cases hc : strictEqStr coinId c.id with
    | true =>
      rw [List.find?_cons_of_pos (p := fun (c : Coin) => strictEqStr coinId c.id) _ hc] at h
      injection h with h2
      subst h2
      simp only [markTakenFirst, hc, if_true]
      exact List.find?_cons_of_pos _ hc
    | false =>
      have hcn : ¬ ((fun (c : Coin) => strictEqStr coinId c.id) c = true) := by simp [hc]
      rw [List.find?_cons_of_neg (p := fun (c : Coin) => strictEqStr coinId c.id) _ hcn] at h
      simp only [markTakenFirst, hc, Bool.false_eq_true, if_false]
      rw [List.find?_cons_of_neg (p := fun (c : Coin) => strictEqStr coinId c.id) _ hcn]
      exact ih h

/-- The relation of coin-taken monotonicity between old and new coin lists. -/
def coinsMono (old new : List Coin) : Prop :=
  List.Forall₂ (fun c c2 => c2.id = c.id ∧ (c.taken = true → c2.taken = true)) old new

theorem coinsMono_refl (l : List Coin) : coinsMono l l :=
  List.forall₂_same.mpr (fun _ _ => ⟨rfl, id⟩)

theorem coinsMono_markTakenFirst (l : List Coin) (cid : JSVal) :
    coinsMono l (markTakenFirst l cid) := by
  induction l with
  | nil => exact List.Forall₂.nil
  | cons c rest ih =>
    cases hc : strictEqStr cid c.id with
    | true =>
      simp only [markTakenFirst, hc, if_true]
      exact List.Forall₂.cons ⟨rfl, fun _ => rfl⟩ (coinsMono_refl rest)
    | false =>
      simp only [markTakenFirst, hc, Bool.false_eq_true, if_false]
      exact List.Forall₂.cons ⟨rfl, id⟩ ih

theorem handleSignal_fst (s : ServerState) (player : Player) (v : JSVal) :
    (handleSignal s player v).1 = s := by
  unfold handleSignal
  repeat' split
  all_goals rfl

/-- Every handler either leaves the coin list unchanged or marks the first
coin matching some `coinId` taken. -/
theorem handleMessage_coins (s : ServerState) (player : Player) (m : Option JSVal)
    (now : ℤ) :
    (handleMessage s player m now).1.coins = s.coins ∨
    ∃ cid, (handleMessage s player m now).1.coins = markTakenFirst s.coins cid := by
  cases m with
  | none => exact Or.inl rfl
  | some v =>
    simp only [handleMessage]
    by_cases h1 : truthy v = false
    · simp [h1]
    by_cases h2 : truthy (getField v "type") = false
    · simp [h1, h2]
    simp only [h1, h2, if_false]
    by_cases h3 : strictEqStr (getField v "type") "join" = true
    · simp [h3, handleJoin]
    by_cases h4 : strictEqStr (getField v "type") "update" = true
    · simp [h3, h4, handleUpdate]
    by_cases h5 : strictEqStr (getField v "type") "collect" = true
    · simp only [h3, h4, h5, Bool.false_eq_true, if_false, if_true]
      unfold handleCollect
      cases hf : s.coins.find? (fun c => strictEqStr (getField v "coinId") c.id) with
      | none => simp [hf]
      | some coin =>
        simp only [hf]
        by_cases ht : coin.taken
        · simp [ht]
        · simp only [ht, Bool.false_eq_true, if_false]
          by_cases hd : JSNum.jsLt (sqDistCode coin player) (.fin 400) = true
          · simp only [hd, if_true]
            exact Or.inr ⟨getField v "coinId", rfl⟩
          · simp [hd]
    by_cases h6 : strictEqStr (getField v "type") "signal" = true
    · simp only [h3, h4, h5, h6, Bool.false_eq_true, if_false, if_true]
      exact Or.inl (congrArg ServerState.coins (handleSignal_fst s player v))
    by_cases h7 : strictEqStr (getField v "type") "chat" = true
    · simp [h3, h4, h5, h6, h7, handleChat]
    · simp [h3, h4, h5, h6, h7]

/-!
## C4 — failed collects are complete no-ops; broadcast only on success
-/

/-- C4: a `collect` message naming no coin, a taken coin, or failing the
proximity check leaves all state unchanged and sends nothing; when the
check passes, the coin is marked and a broadcast is the only output. -/
theorem C4_collect_noop_unless_success (s : ServerState) (player : Player)
    (v : JSVal) (now : ℤ) (h : getField v "type" = .vStr "collect") :
    (s.coins.find? (fun c => strictEqStr (getField v "coinId") c.id) = none →
      handleMessage s player (some v) now = (s, [])) ∧
    (∀ coin, s.coins.find? (fun c => strictEqStr (getField v "coinId") c.id) = some coin →
      coin.taken = true → handleMessage s player (some v) now = (s, [])) ∧
    (∀ coin, s.coins.find? (fun c => strictEqStr (getField v "coinId") c.id) = some coin →
      coin.taken = false → JSNum.jsLt (sqDistCode coin player) (.fin 400) = false →
      handleMessage s player (some v) now = (s, [])) ∧
    (∀ coin, s.coins.find? (fun c => strictEqStr (getField v "coinId") c.id) = some coin →
      coin.taken = false → JSNum.jsLt (sqDistCode coin player) (.fin 400) = true →
      handleMessage s player (some v) now =
        ({ s with coins := markTakenFirst s.coins (getField v "coinId") },
          broadcastDeliveries
            { s with coins := markTakenFirst s.coins (getField v "coinId") } now)) := by
  rw [handleMessage_collect h]
  refine ⟨?_, ?_, ?_, ?_⟩
  · intro hf; simp [handleCollect, hf]
  · intro coin hf ht; simp [handleCollect, hf, ht]
  · intro coin hf ht hd; simp [handleCollect, hf, ht, hd]
  · intro coin hf ht hd; simp [handleCollect, hf, ht, hd]

/-- Witness for C4: collecting the unknown coin id `"zzz"` on the demo
state is a complete no-op. -/
theorem C4_witness :
    handleMessage sDemo pDemo
        (some (.vObj [("type", .vStr "collect"), ("coinId", .vStr "zzz")])) 7 = (sDemo, []) :=
  (C4_collect_noop_unless_success sDemo pDemo
      (.vObj [("type", .vStr "collect"), ("coinId", .vStr "zzz")]) 7 (by rfl)).1 (by rfl)

/-!
## C2 — collection succeeds iff squared distance is strictly below 400
-/

/-- C2: for a `collect` naming an existing untaken coin, the coin's taken
flag becomes true if and only if the squared distance from the acting
player's server-side position, computed as the handler computes it, is
strictly less than 400. -/
theorem C2_collect_iff_sqdist_lt (s : ServerState) (player : Player) (v : JSVal)
    (now : ℤ) (coin : Coin) (h : getField v "type" = .vStr "collect")
    (hfind : s.coins.find? (fun c => strictEqStr (getField v "coinId") c.id) = some coin)
    (htaken : coin.taken = false) :
    ((handleMessage s player (some v) now).1.coins.find?
        (fun c => strictEqStr (getField v "coinId") c.id) = some { coin with taken := true })
      ↔ JSNum.jsLt (sqDistCode coin player) (.fin 400) = true := by
  cases hd : JSNum.jsLt (sqDistCode coin player) (.fin 400) with
  | true =>
    have hres : handleMessage s player (some v) now =
        ({ s with coins := markTakenFirst s.coins (getField v "coinId") },
          broadcastDeliveries
            { s with coins := markTakenFirst s.coins (getField v "coinId") } now) := by
      rw [handleMessage_collect h]
      simp [handleCollect, hfind, htaken, hd]
    rw [hres]
    exact iff_of_true (find?_markTakenFirst hfind) rfl
  | false =>
    have hres : handleMessage s player (some v) now = (s, []) := by
      rw [handleMessage_collect h]
      simp [handleCollect, hfind, htaken, hd]
    rw [hres]
    refine iff_of_false ?_ (by simp)
    intro heq
    have hcc : coin = { coin with taken := true } :=
      Option.some.inj ((hfind.symm.trans heq))
    have ht2 : coin.taken = true := congrArg Coin.taken hcc
    rw [htaken] at ht2
    exact absurd ht2 (by simp)

/-- Witness for C2: `pDemo` at (800,450) collecting `cDemo` at (820,450),
squared distance exactly 400: the boundary case fails and the coin stays
untaken. -/
theorem C2_witness :
    cDemo.taken = false ∧
    JSNum.jsLt (sqDistCode cDemo pDemo) (.fin 400) = false ∧
    (((handleMessage sDemo pDemo
          (some (.vObj [("type", .vStr "collect"), ("coinId", .vStr "c0")])) 7).1.coins.find?
        (fun c => strictEqStr
          (getField (.vObj [("type", .vStr "collect"), ("coinId", .vStr "c0")]) "coinId") c.id)
        = some { cDemo with taken := true })
      ↔ JSNum.jsLt (sqDistCode cDemo pDemo) (.fin 400) = true) :=
  ⟨rfl, by with_unfolding_all decide,
    C2_collect_iff_sqdist_lt sDemo pDemo
      (.vObj [("type", .vStr "collect"), ("coinId", .vStr "c0")]) 7 cDemo
      (by rfl) (by rfl) rfl⟩

/-!
## C3 — the taken flag is monotonic; a second identical collect is a no-op
-/

/-- C3: no processed message ever resets a taken flag from true to false
(each coin keeps its id and taken-monotonicity under every message), and a
`collect` naming an already-taken coin is a complete no-op. -/
theorem C3_taken_monotone_and_second_collect_noop (s : ServerState) (player : Player)
    (m : Option JSVal) (now : ℤ) :
    coinsMono s.coins (handleMessage s player m now).1.coins ∧
    (∀ v coin, m = some v → getField v "type" = .vStr "collect" →
      s.coins.find? (fun c => strictEqStr (getField v "coinId") c.id) = some coin →
      coin.taken = true → handleMessage s player m now = (s, [])) := by
  constructor
  · rcases handleMessage_coins s player m now with hc | ⟨cid, hc⟩
    · rw [hc]; exact coinsMono_refl s.coins
    · rw [hc]; exact coinsMono_markTakenFirst s.coins cid
  · rintro v coin rfl htype hfind htaken
    rw [handleMessage_collect htype]
    simp [handleCollect, hfind, htaken]

/-- Witness for C3: a second `collect` for the already-taken coin `"c2"`
is a no-op on the demo state. -/
theorem C3_witness :
    cDemoTaken.taken = true ∧
    handleMessage sDemo pDemo
        (some (.vObj [("type", .vStr "collect"), ("coinId", .vStr "c2")])) 7 = (sDemo, []) :=
  ⟨rfl,
    (C3_taken_monotone_and_second_collect_noop sDemo pDemo
        (some (.vObj [("type", .vStr "collect"), ("coinId", .vStr "c2")])) 7).2
      (.vObj [("type", .vStr "collect"), ("coinId", .vStr "c2")]) cDemoTaken
      rfl (by rfl) (by rfl) rfl⟩

/-!
## C1 — the update clamp keeps positions and radius in range, except NaN

`Math.max(0, Math.min(W, NaN))` evaluates to NaN, so an `update` carrying
NaN stores NaN and the range invariant fails: the claim as stated (for all
JS numbers including NaN) is false. It holds for every non-NaN input,
including both infinities.
-/

/-- Is the JS number a finite value within `[lo, hi]`? NaN and the
infinities are out of range. -/
def inRangeB (v : JSNum) (lo hi : ℚ) : Bool :=
  match v with
  | .fin q => decide (lo ≤ q) && decide (q ≤ hi)
  | _ => false

/-- The range invariant of the spec: x in [0,1600], y in [0,900],
bubbleRadius in [30,400]. -/
def playerInvB (p : Player) : Bool :=
  inRangeB p.x 0 1600 && inRangeB p.y 0 900 && inRangeB p.bubbleRadius 30 400

/-- True unless the value is the number NaN. -/
def notNaNVal : JSVal → Bool
  | .vNum .nan => false
  | _ => true

/-- Is this a frame the `update` branch handles? -/
def isUpdateMsg (v : JSVal) : Bool := strictEqStr (getField v "type") "update"

/-- None of the three update fields carries NaN. -/
def updateMsgOk (v : JSVal) : Bool :=
  notNaNVal (getField v "x") && notNaNVal (getField v "y") &&
    notNaNVal (getField v "bubbleRadius")

/-- Apply one raw message for the connection whose player id is `pid`: the
closure's player object is the map entry under `pid` (they alias). When the
player is no longer registered, an `update` mutates only the detached
object, so the map is unchanged; this function is used for sequences of
`update` messages, where that is exactly the source behaviour. -/
def applyMsg (s : ServerState) (pid : String) (m : Option JSVal) (now : ℤ) : ServerState :=
  match findPlayer s pid with
  | some p => (handleMessage s p m now).1
  | none => s

/-- Apply a list of (acting player id, frame) pairs in order. -/
def applyMsgs (s : ServerState) (l : List (String × JSVal)) (now : ℤ) : ServerState :=
  l.foldl (fun st pm => applyMsg st pm.1 (some pm.2) now) s

theorem inRangeB_jsClamp {lo hi : ℚ} (hlh : lo ≤ hi) {v : JSNum} (hv : v ≠ .nan) :
    inRangeB (jsClamp lo hi v) lo hi = true := by
  cases v with
  | nan => exact absurd rfl hv
  | posInf =>
    show inRangeB (.fin (max lo hi)) lo hi = true
    simp [inRangeB, le_max_left, max_le hlh le_rfl]
  | negInf =>
    show inRangeB (.fin lo) lo hi = true
    simp [inRangeB, hlh]
  | fin q =>
    show inRangeB (.fin (max lo (min hi q))) lo hi = true
    simp [inRangeB, le_max_left, max_le hlh (min_le_left hi q)]

theorem inRangeB_jsClampOr {lo hi : ℚ} (hlh : lo ≤ hi) {w : JSVal} {d : JSNum}
    (hw : notNaNVal w = true) (hd : inRangeB d lo hi = true) :
    inRangeB (jsClampOr lo hi w d) lo hi = true := by
  cases w with
  | vNum n =>
    have hn : n ≠ .nan := by cases n <;> simp_all [notNaNVal]
    exact inRangeB_jsClamp hlh hn
  | vUndefined => exact hd
  | vNull => exact hd
  | vBool b => exact hd
  | vStr t => exact hd
  | vArr l => exact hd
  | vObj l => exact hd

theorem playerInvB_updatedPlayer {p : Player} (hp : playerInvB p = true) {v : JSVal}
    (hok : updateMsgOk v = true) : playerInvB (updatedPlayer p v) = true := by
  simp only [playerInvB, Bool.and_eq_true] at hp
  obtain ⟨⟨hx, hy⟩, hr⟩ := hp
  simp only [updateMsgOk, Bool.and_eq_true] at hok
  obtain ⟨⟨hokx, hoky⟩, hokr⟩ := hok
  simp only [playerInvB, Bool.and_eq_true]
  exact ⟨⟨inRangeB_jsClampOr (by norm_num) hokx hx,
          inRangeB_jsClampOr (by norm_num) hoky hy⟩,
         inRangeB_jsClampOr (by norm_num) hokr hr⟩

theorem allInv_setPlayer {ps : List Player} (hps : ps.all playerInvB = true) {p : Player}
    (hp : playerInvB p = true) : (setPlayer ps p).all playerInvB = true := by
  rw [List.all_eq_true] at hps ⊢
  intro q hq
  simp only [setPlayer, List.mem_map] at hq
  obtain ⟨r, hr, rfl⟩ := hq
  by_cases hid : r.id = p.id
  · simpa [hid] using hp
  · simpa [hid] using hps r hr

theorem applyMsg_update_preserves_inv (s : ServerState) (pid : String) (v : JSVal)
    (now : ℤ) (hinv : s.players.all playerInvB = true)
    (hmsg : isUpdateMsg v = true) (hok : updateMsgOk v = true) :
    (applyMsg s pid (some v) now).players.all playerInvB = true := by
  rw [applyMsg]
  cases hf : findPlayer s pid with
  | none => exact hinv
  | some p =>
    have htype : getField v "type" = .vStr "update" := strictEqStr_eq_true.mp hmsg
    show ((handleMessage s p (some v) now).1).players.all playerInvB = true
    rw [handleMessage_update htype]
    show (setPlayer s.players (updatedPlayer p v)).all playerInvB = true
    have hmem : p ∈ s.players := by
      rw [findPlayer] at hf
      exact List.mem_of_find?_eq_some hf
    have hp : playerInvB p = true := List.all_eq_true.mp hinv p hmem
    exact allInv_setPlayer hinv (playerInvB_updatedPlayer hp hok)

/-- Amended C1: starting from any state whose players satisfy the range
invariant (as the connect defaults do), after each message of any sequence
of `update` messages whose numeric fields are never NaN — any finite value
and both infinities are allowed — every player's x lies in [0,1600], y in
[0,900] and bubbleRadius in [30,400]. With a NaN field the invariant fails
(see the counterexample). -/
theorem C1_update_invariant_without_nan (s : ServerState) (l : List (String × JSVal))
    (now : ℤ) (hinv : s.players.all playerInvB = true)
    (hl : l.all (fun pm => isUpdateMsg pm.2 && updateMsgOk pm.2) = true) :
    ∀ n : ℕ, (applyMsgs s (l.take n) now).players.all playerInvB = true := by
  induction l generalizing s with
  | nil =>
    intro n
    simpa [applyMsgs] using hinv
  | cons pm rest ih =>
    intro n
    simp only [List.all_cons, Bool.and_eq_true] at hl
    obtain ⟨⟨hmsg, hok⟩, hrest⟩ := hl
    cases n with
    | zero => simpa [applyMsgs] using hinv
    | succ n =>
      simp only [List.take_succ_cons, applyMsgs, List.foldl_cons]
      exact ih (applyMsg s pm.1 (some pm.2) now)
        (applyMsg_update_preserves_inv s pm.1 pm.2 now hinv hmsg hok) hrest n

/-- Counterexample to C1 as stated: an `update` whose x is NaN stores NaN
(`Math.max(0, Math.min(1600, NaN))` is NaN), and NaN is outside [0,1600],
so the invariant fails after that message. -/
theorem C1_counterexample :
    findPlayer (applyMsgs sDemo [("p1", .vObj [("type", .vStr "update"),
        ("x", .vNum .nan)])] 7) "p1" = some { pDemo with x := .nan } ∧
    inRangeB JSNum.nan 0 1600 = false ∧
    (applyMsgs sDemo [("p1", .vObj [("type", .vStr "update"),
        ("x", .vNum .nan)])] 7).players.all playerInvB = false := by
  refine ⟨?_, rfl, ?_⟩ <;> with_unfolding_all decide

/-- Witness for the amended C1: one update with the out-of-range finite
x = 99999 and bubbleRadius = +∞ keeps the demo state's players in range. -/
theorem C1_witness :
    sDemo.players.all playerInvB = true ∧
    ([(("p1" : String), (.vObj [("type", .vStr "update"), ("x", .vNum (.fin 99999)),
        ("bubbleRadius", .vNum .posInf)] : JSVal))].all
      (fun pm => isUpdateMsg pm.2 && updateMsgOk pm.2) = true) ∧
    (applyMsgs sDemo ([("p1", .vObj [("type", .vStr "update"), ("x", .vNum (.fin 99999)),
        ("bubbleRadius", .vNum .posInf)])].take 1) 7).players.all playerInvB = true :=
  ⟨by with_unfolding_all decide, by with_unfolding_all decide,
    C1_update_invariant_without_nan sDemo
      [("p1", .vObj [("type", .vStr "update"), ("x", .vNum (.fin 99999)),
        ("bubbleRadius", .vNum .posInf)])] 7
      (by with_unfolding_all decide) (by with_unfolding_all decide) 1⟩

/-!
## C7 — connection open: fresh id, defaults, one welcome, then broadcast
-/

/-- Is the frame a `welcome` frame? -/
def isWelcomePayload : Payload → Bool
  | .welcome _ _ _ _ _ => true
  | _ => false

theorem countP_isWelcome_broadcast (s : ServerState) (now : ℤ) :
    (broadcastDeliveries s now).countP (fun d => isWelcomePayload d.payload) = 0 := by
  rw [List.countP_eq_zero]
  intro d hd
  simp only [broadcastDeliveries, List.mem_map] at hd
  obtain ⟨p, _, rfl⟩ := hd
  simp [isWelcomePayload]

/-- C7: on connection open a player is created with id `'p' + nextId` (the
monotonic counter, so the id differs from every id handed out earlier),
default position (800, 450) and radius 120; the counter is incremented;
exactly one `welcome` frame is sent, to the new connection, carrying the
id, the world bounds 1600 × 900 with groundY 780, and the full current
coin list (20 entries); and it is followed by an immediate broadcast. -/
theorem C7_connect_fresh_id_welcome_broadcast (s : ServerState) (now : ℤ)
    (h20 : s.coins.length = 20) :
    (handleConnect s now).1.nextId = s.nextId + 1 ∧
    (handleConnect s now).1.players = s.players ++
      [{ id := mkPlayerId s.nextId, name := "Pilot" ++ mkPlayerId s.nextId,
         x := .fin 800, y := .fin 450, bubbleRadius := .fin 120, wsOpen := true }] ∧
    (handleConnect s now).1.coins = s.coins ∧
    (handleConnect s now).2 =
      { recipient := mkPlayerId s.nextId
        payload := .welcome (mkPlayerId s.nextId) 1600 900 780 s.coins }
        :: broadcastDeliveries (handleConnect s now).1 now ∧
    (handleConnect s now).2.countP (fun d => isWelcomePayload d.payload) = 1 ∧
    s.coins.length = 20 ∧
    (∀ k, k < s.nextId → mkPlayerId s.nextId ≠ mkPlayerId k) := by
  refine ⟨rfl, rfl, rfl, rfl, ?_, h20, ?_⟩
  · have hd : (handleConnect s now).2 =
        ({ recipient := mkPlayerId s.nextId,
           payload := .welcome (mkPlayerId s.nextId) 1600 900 780 s.coins } : Delivery)
          :: broadcastDeliveries (handleConnect s now).1 now := rfl
    rw [hd, List.countP_cons, countP_isWelcome_broadcast]
    simp [isWelcomePayload]
  · intro k hk heq
    exact absurd (mkPlayerId_inj heq) (by omega)

/-- Witness for C7: connecting to a fresh process state seeded by
`spawnCoins` increments the counter, sends exactly one welcome, and the
new id differs from the id of counter value 0. -/
theorem C7_witness :
    (spawnCoins (fun _ => 1 / 2)).length = 20 ∧
    (handleConnect { nextId := 1, players := [], coins := spawnCoins (fun _ => 1 / 2) }
        7).1.nextId = 2 ∧
    (handleConnect { nextId := 1, players := [], coins := spawnCoins (fun _ => 1 / 2) }
        7).2.countP (fun d => isWelcomePayload d.payload) = 1 ∧
    mkPlayerId 1 ≠ mkPlayerId 0 := by
  have hlen : (spawnCoins (fun _ => (1 : ℚ) / 2)).length = 20 := by simp [spawnCoins]
  obtain ⟨h1, _, _, _, h5, _, h7⟩ :=
    C7_connect_fresh_id_welcome_broadcast
      { nextId := 1, players := [], coins := spawnCoins (fun _ => 1 / 2) } 7 hlen
  exact ⟨hlen, h1, h5, h7 0 (by decide)⟩

/-!
## C10 — the seeded coin set
-/

/-- C10: for any sequence of `Math.random()` draws in [0,1), `spawnCoins`
yields exactly 20 coins with the pairwise-distinct ids `"c0"`…`"c19"`, all
untaken, at integer positions with 80 ≤ x ≤ 1519 and 80 ≤ y ≤ 739, hence
strictly inside the 1600 × 900 world. -/
theorem C10_spawnCoins_seed (r : ℕ → ℚ) (h : ∀ i, 0 ≤ r i ∧ r i < 1) :
    (spawnCoins r).length = 20 ∧
    (spawnCoins r).map Coin.id = (List.range 20).map (fun i => "c" ++ Nat.repr i) ∧
    ((spawnCoins r).map Coin.id).Nodup ∧
    (∀ c ∈ spawnCoins r, c.taken = false ∧
      80 ≤ c.x ∧ c.x ≤ 1519 ∧ 80 ≤ c.y ∧ c.y ≤ 739 ∧
      0 < c.x ∧ c.x < 1600 ∧ 0 < c.y ∧ c.y < 900) := by
  have hids : (spawnCoins r).map Coin.id = (List.range 20).map (fun i => "c" ++ Nat.repr i) := by
    simp [spawnCoins]
  refine ⟨by simp [spawnCoins], hids, ?_, ?_⟩
  · rw [hids]
    decide
  · intro c hc
    simp only [spawnCoins, List.mem_map, List.mem_range] at hc
    obtain ⟨i, hi, rfl⟩ := hc
    obtain ⟨h0, h1⟩ := h (2 * i)
    obtain ⟨h2, h3⟩ := h (2 * i + 1)
    have hx0 : 0 ≤ ⌊r (2 * i) * ((1600 : ℚ) - 160)⌋ :=
      Int.floor_nonneg.mpr (mul_nonneg h0 (by norm_num))
    have hx1 : ⌊r (2 * i) * ((1600 : ℚ) - 160)⌋ < 1440 := by
      rw [Int.floor_lt]
      push_cast
      nlinarith
    have hy0 : 0 ≤ ⌊r (2 * i + 1) * ((900 : ℚ) - 240)⌋ :=
      Int.floor_nonneg.mpr (mul_nonneg h2 (by norm_num))
    have hy1 : ⌊r (2 * i + 1) * ((900 : ℚ) - 240)⌋ < 660 := by
      rw [Int.floor_lt]
      push_cast
      nlinarith
    dsimp only
    refine ⟨rfl, by omega, by omega, by omega, by omega, by omega, by omega, by omega, by omega⟩

/-- Witness for C10: the constant draw 1/2 seeds 20 distinct untaken coins
in range. -/
theorem C10_witness :
    (∀ i : ℕ, 0 ≤ ((fun _ => (1 : ℚ) / 2) i) ∧ ((fun _ => (1 : ℚ) / 2) i) < 1) ∧
    (spawnCoins (fun _ => 1 / 2)).length = 20 ∧
    ((spawnCoins (fun _ => 1 / 2)).map Coin.id).Nodup ∧
    (∀ c ∈ spawnCoins (fun _ => (1 : ℚ) / 2), c.taken = false ∧
      80 ≤ c.x ∧ c.x ≤ 1519 ∧ 80 ≤ c.y ∧ c.y ≤ 739 ∧
      0 < c.x ∧ c.x < 1600 ∧ 0 < c.y ∧ c.y < 900) := by
  have hr : ∀ i : ℕ, 0 ≤ ((fun _ => (1 : ℚ) / 2) i) ∧ ((fun _ => (1 : ℚ) / 2) i) < 1 := by
    intro i
    constructor <;> norm_num
  obtain ⟨ha, _, hb, hc⟩ := C10_spawnCoins_seed (fun _ => 1 / 2) hr
  exact ⟨hr, ha, hb, hc⟩

end Skybound
